import Mathlib

/-!
Verification of the SBP operator library (`periodic.py`, `upwind.py`).

The Python code is shallowly embedded over exact rationals: numpy float
arrays of stencil weights become `List ℚ` / `ℕ → ℚ` data, matrices become
functions `ℕ → ℕ → ℚ` whose meaningful entries are the indices below the
grid size `m`, and Python exceptions become an `Except` error value.
-/

namespace Sbp

/-- Exceptions observable from the Python builders: `notImplemented` models
Python's `NotImplementedError` raised on an unsupported accuracy order,
`indexError` models numpy's `IndexError` on an out-of-bounds array write,
and `valueError` models numpy's shape-mismatch `ValueError` when a boundary
block does not fit into the matrix. -/
inductive SbpError where
  | notImplemented : SbpError
  | indexError : SbpError
  | valueError : SbpError
deriving DecidableEq

/-- A matrix is a rational-valued function of two indices; entries with
index at or above the grid size are irrelevant. -/
abbrev Mat : Type := ℕ → ℕ → ℚ

/-- A vector is a rational-valued function of one index. -/
abbrev Vec : Type := ℕ → ℚ

/-- The length-`m` vector `v` built by both loops of the periodic builders:
`v[i] = d[i+l]` for `0 ≤ i ≤ r`, then (overwriting on overlap, as the second
Python loop runs after the first) `v[m-i-1] = d[l-i-1]` for `0 ≤ i < l`.
Positions written by neither loop hold the `np.zeros` value `0`. -/
def buildv (m l r : ℕ) (d : List ℚ) : Vec := fun k =>
  if m - l ≤ k ∧ k < m then d.getD (k + l - m) 0
  else if k ≤ r then d.getD (k + l) 0
  else 0

/-- `np.flip` of a length-`m` vector. -/
def npFlip (m : ℕ) (v : Vec) : Vec := fun k => v (m - 1 - k)

/-- `np.roll(·, 1)` of a length-`m` vector: entry `k` is entry `(k-1) mod m`
of the input. -/
def npRoll1 (m : ℕ) (v : Vec) : Vec := fun k => v ((k + (m - 1)) % m)

/-- `scipy.linalg.toeplitz(c, r)`: first column `c`, first row `r`. -/
def toeplitz (c r : Vec) : Mat := fun i j =>
  if i ≤ j then r (j - i) else c (i - j)

/-- The circulant assembly used by every periodic builder:
`toeplitz(np.roll(np.flip(v), 1), v)`. -/
def circmat (m : ℕ) (v : Vec) : Mat :=
  toeplitz (npRoll1 m (npFlip m v)) v

/-- Interior stencil table of `periodic_expl`: the chain of `if order == …`
tests returning the difference stencil `d` and half-widths `l`, `r`, or
raising `NotImplementedError`. -/
def explStencil (order : ℕ) : Except SbpError (List ℚ × ℕ × ℕ) :=
  if order = 2 then .ok ([-1/2, 0, 1/2], 1, 1)
  else if order = 4 then .ok ([1/12, -2/3, 0, 2/3, -1/12], 2, 2)
  else if order = 6 then .ok ([-1/60, 3/20, -3/4, 0, 3/4, -3/20, 1/60], 3, 3)
  else if order = 8 then
    .ok ([1/280, -4/105, 1/5, -4/5, 0, 4/5, -1/5, 4/105, -1/280], 4, 4)
  else if order = 10 then
    .ok ([-1/1260, 5/504, -5/84, 5/21, -5/6, 0, 5/6, -5/21, 5/84, -5/504,
          1/1260], 5, 5)
  else if order = 12 then
    .ok ([1/5544, -1/385, 1/56, -5/63, 15/56, -6/7, 0, 6/7, -15/56, 5/63,
          -1/56, 1/385, -1/5544], 6, 6)
  else .error .notImplemented

/-- Artificial-dissipation table of `periodic_expl`: stencil `d`,
half-widths `l`, `r` and scale `a` per order (the source negates the
binomial array for orders 4, 8 and 12). -/
def adStencil (order : ℕ) : Except SbpError (List ℚ × ℕ × ℕ × ℚ) :=
  if order = 2 then .ok ([1, -2, 1], 1, 1, 1/2)
  else if order = 4 then
    .ok (([1, -4, 6, -4, 1] : List ℚ).map (fun x => -x), 2, 2, 1/12)
  else if order = 6 then .ok ([1, -6, 15, -20, 15, -6, 1], 3, 3, 1/60)
  else if order = 8 then
    .ok (([1, -8, 28, -56, 70, -56, 28, -8, 1] : List ℚ).map (fun x => -x),
         4, 4, 1/280)
  else if order = 10 then
    .ok ([1, -10, 45, -120, 210, -252, 210, -120, 45, -10, 1], 5, 5, 1/1260)
  else if order = 12 then
    .ok (([1, -12, 66, -220, 495, -792, 924, -792, 495, -220, 66, -12, 1] :
          List ℚ).map (fun x => -x), 6, 6, 1/5544)
  else .error .notImplemented

/-- `periodic_expl(m, h, order, use_AD)` from `periodic.py`.  The loops
filling `v` raise `IndexError` when `m ≤ r` (the first loop writes `v[r]`);
otherwise `Q` is the circulant of the stencil, `H = h*np.eye(m)`, and with
`use_AD` the scaled dissipation circulant `S` is subtracted from `Q`. -/
def periodic_expl (m : ℕ) (h : ℚ) (order : ℕ) (use_AD : Bool) :
    Except SbpError (Mat × Mat) := do
  let (d, l, r) ← explStencil order
  if r < m then
    let Q : Mat := circmat m (buildv m l r d)
    let H : Mat := fun i j => h * (if i = j then 1 else 0)
    if use_AD then
      let (d₂, l₂, r₂, a) ← adStencil order
      if r₂ < m then
        let S : Mat := fun i j => a * circmat m (buildv m l₂ r₂ d₂) i j
        return (H, fun i j => Q i j - S i j)
      else throw .indexError
    else return (H, Q)
  else throw .indexError

/-- Norm-stencil constant `h0` of `periodic_imp`. -/
def h0 : ℚ := 4203267613564094932432577824954/7049220443079284250976145948443
/-- Norm-stencil constant `h1` of `periodic_imp`. -/
def h1 : ℚ := 22618790744689935699264926210401/84590645316951411011713751381316
/-- Norm-stencil constant `h2` of `periodic_imp`. -/
def h2 : ℚ := -2209778222820418388602425303685/42295322658475705505856875690658
/-- Norm-stencil constant `h3` of `periodic_imp`. -/
def h3 : ℚ := -1581945765/75409415044
/-- Norm-stencil constant `h4` of `periodic_imp`. -/
def h4 : ℚ := 228992488/33235651987
/-- Norm-stencil constant `h5` of `periodic_imp`. -/
def h5 : ℚ := 27214243/33751459947

/-- Difference-stencil constant `q1` of `periodic_imp`. -/
def q1 : ℚ := 9607266784889201296177/19560081711822931675052
/-- Difference-stencil constant `q2` of `periodic_imp`. -/
def q2 : ℚ := 8866705546306148289391/97800408559114658375260
/-- Difference-stencil constant `q3` of `periodic_imp`. -/
def q3 : ℚ := -19659090145677941034997/293401225677343975125780
/-- Difference-stencil constant `q4` of `periodic_imp`. -/
def q4 : ℚ := 127051314/37983174851
/-- Difference-stencil constant `q5` of `periodic_imp`. -/
def q5 : ℚ := 389910724/128741750713

/-- The difference stencil of `periodic_imp` (half-widths `l = r = 5`). -/
def impQd : List ℚ := [-q5, -q4, -q3, -q2, -q1, 0, q1, q2, q3, q4, q5]

/-- The norm stencil of `periodic_imp` (half-widths `l = r = 5`). -/
def impHd : List ℚ := [h5, h4, h3, h2, h1, h0, h1, h2, h3, h4, h5]

/-- The order-12 artificial-dissipation stencil as it appears in
`periodic_imp`: the negated binomial array, with `l = r = 6`, `a = 1/5544`. -/
def impADd : List ℚ :=
  ([1, -12, 66, -220, 495, -792, 924, -792, 495, -220, 66, -12, 1] :
    List ℚ).map (fun x => -x)

/-- `periodic_imp(m, h, use_AD)` from `periodic.py`: the fixed compact pair.
`Q` is the circulant of `impQd`; `H` is `h` times the circulant of `impHd`;
with `use_AD` the order-12 dissipation circulant scaled by `1/5544` is
subtracted from `Q`.  The `v` loops raise `IndexError` when `m ≤ 5`
(respectively `m ≤ 6` for the dissipation stencil). -/
def periodic_imp (m : ℕ) (h : ℚ) (use_AD : Bool) :
    Except SbpError (Mat × Mat) := do
  if 5 < m then
    let Q : Mat := circmat m (buildv m 5 5 impQd)
    let H : Mat := fun i j => h * circmat m (buildv m 5 5 impHd) i j
    if use_AD then
      if 6 < m then
        let a : ℚ := 1/5544
        let S : Mat := fun i j => a * circmat m (buildv m 6 6 impADd) i j
        return (H, fun i j => Q i j - S i j)
      else throw .indexError
    else return (H, Q)
  else throw .indexError

/-- Matrix product truncated at grid size `m` (`A @ B` for m-by-m arrays). -/
def matMul (m : ℕ) (A B : Mat) : Mat :=
  fun i j => ∑ k in Finset.range m, A i k * B k j

/-- `np.diag(c)`: the diagonal matrix of a coefficient vector. -/
def diagM (c : Vec) : Mat := fun i j => if i = j then c i else 0

/-- `periodic_variable_wide(m, h, order)` from `periodic.py`: obtains
`H, Q` from `periodic_expl` with dissipation off and returns the closure
`M_fun(c) = -1/h * Q @ diag(c) @ Q`. -/
def periodic_variable_wide (m : ℕ) (h : ℚ) (order : ℕ) :
    Except SbpError (Vec → Mat) := do
  let (_H, Q) ← periodic_expl m h order false
  return fun c => fun i j => -1/h * matMul m (matMul m Q (diagM c)) Q i j

/-- `np.diag(np.ones(m - |off|), off)`: the m-by-m matrix with ones on the
diagonal at offset `off` and zeros elsewhere. -/
def bandOnes (m : ℕ) (off : ℤ) : Mat := fun i j =>
  if i < m ∧ j < m ∧ (j : ℤ) - i = off then 1 else 0

/-- A linear combination of `bandOnes` matrices: the interior banded part of
an upwind difference matrix. -/
def bandSum (m : ℕ) (bands : List (ℤ × ℚ)) : Mat := fun i j =>
  (bands.map (fun p => p.2 * bandOnes m p.1 i j)).sum

/-- The values returned by an upwind builder, together with the two
intermediate matrices `Qp` and `Qm` of the source (local variables there,
exposed here so that properties about them can be stated). -/
structure UpwindOp where
  H : Mat
  HI : Mat
  Dp : Mat
  Dm : Mat
  e_l : Vec
  e_r : Vec
  Qp : Mat
  Qm : Mat

/-- Common assembly of the three upwind builders from their data tables:
boundary width `b`, boundary norm weights `w`, interior band coefficients
`bands`, and the dense boundary closure `Qu`.  `H` is diagonal: identity
except the leading `b` entries are `w` and the trailing `b` entries are `w`
reversed (`np.fliplr(np.flipud(...))` of the leading block), scaled by `h`;
`HI` is its inverse (`np.linalg.inv` of a diagonal matrix).  `Qp` is the
banded interior with the leading block overwritten by `Qu` and the trailing
block by `np.flipud(np.fliplr(Qu)).T` (the trailing assignment runs second,
so it wins on overlap); `Qm = -Qp.T`; `Dp`, `Dm` fold in the `±1/2`
boundary corrections through `HI`. -/
def mkUpwind (m : ℕ) (h : ℚ) (b : ℕ) (w : List ℚ) (bands : List (ℤ × ℚ))
    (Qu : List (List ℚ)) : UpwindOp :=
  let e_l : Vec := fun k => if k = 0 then 1 else 0
  let e_r : Vec := fun k => if k = m - 1 then 1 else 0
  let Hdiag : Vec := fun i =>
    if m - b ≤ i ∧ i < m then w.getD (m - 1 - i) 0
    else if i < b then w.getD i 0
    else 1
  let H : Mat := fun i j => if i = j ∧ i < m then h * Hdiag i else 0
  let HI : Mat := fun i j => if i = j ∧ i < m then (h * Hdiag i)⁻¹ else 0
  let Qp : Mat := fun i j =>
    if m - b ≤ i ∧ i < m ∧ m - b ≤ j ∧ j < m then
      (Qu.getD (m - 1 - j) []).getD (m - 1 - i) 0
    else if i < b ∧ j < b then (Qu.getD i []).getD j 0
    else bandSum m bands i j
  let Qm : Mat := fun i j => -(Qp j i)
  let Dp : Mat := matMul m HI
    (fun i j => Qp i j - 1/2 * (e_l i * e_l j) + 1/2 * (e_r i * e_r j))
  let Dm : Mat := matMul m HI
    (fun i j => Qm i j - 1/2 * (e_l i * e_l j) + 1/2 * (e_r i * e_r j))
  ⟨H, HI, Dp, Dm, e_l, e_r, Qp, Qm⟩

/-- Boundary norm weights of `sbp_upwind_3rd`. -/
def w3 : List ℚ :=
  [4347899357/12695947216, 12032349023/9521960412,
   32831414215/38087841648, 6550489565/6347973608]

/-- Boundary closure block `Qu` of `sbp_upwind_3rd`. -/
def Qu3 : List (List ℚ) :=
  [[-847/37560, 79604458492699/119214944358240,
    -1643521867663/14901868044780, -4160444549287/119214944358240],
   [-22671019561497/39738314786080, -6023/37560,
    91628011326497/119214944358240, -749671686919/19869157393040],
   [63495586071/1241822337065, -16644840223051/39738314786080,
    -4311/12520, 104757273135509/119214944358240],
   [4998377065543/119214944358240, -5276507651527/59607472179120,
    -12476888349687/39738314786080, -5919/12520]]

/-- `sbp_upwind_3rd(m, h)` from `upwind.py`.  For `m < 4` the 4-by-4 block
assignments fail with a numpy shape `ValueError`. -/
def sbp_upwind_3rd (m : ℕ) (h : ℚ) : Except SbpError UpwindOp :=
  if 4 ≤ m then
    .ok (mkUpwind m h 4 w3 [(-1, -1/3), (0, -1/2), (1, 1), (2, -1/6)] Qu3)
  else .error .valueError

/-- Boundary norm weights of `sbp_upwind_5th`. -/
def w5 : List ℚ := [251/720, 299/240, 211/240, 739/720]

/-- Boundary closure block `Qu` of `sbp_upwind_5th`. -/
def Qu5 : List (List ℚ) :=
  [[-1/120, 941/1440, -47/360, -7/480],
   [-869/1440, -11/120, 25/32, -43/360],
   [29/360, -17/32, -29/120, 1309/1440],
   [1/32, -11/360, -661/1440, -13/40]]

/-- `sbp_upwind_5th(m, h)` from `upwind.py`.  For `m < 4` the 4-by-4 block
assignments fail with a numpy shape `ValueError`. -/
def sbp_upwind_5th (m : ℕ) (h : ℚ) : Except SbpError UpwindOp :=
  if 4 ≤ m then
    .ok (mkUpwind m h 4 w5
      [(-2, 1/20), (-1, -1/2), (0, -1/3), (1, 1), (2, -1/4), (3, 1/30)] Qu5)
  else .error .valueError

/-- Boundary norm weights of `sbp_upwind_7th`. -/
def w7 : List ℚ :=
  [19087/60480, 84199/60480, 18869/30240,
   37621/30240, 55031/60480, 61343/60480]

/-- Boundary closure block `Qu` of `sbp_upwind_7th`. -/
def Qu7 : List (List ℚ) :=
  [[-265/300272, 1587945773/2432203200, -1926361/25737600,
    -84398989/810734400, 48781961/4864406400, 3429119/202683600],
   [-1570125773/2432203200, -26517/1501360, 240029831/486440640,
    202934303/972881280, 118207/13512240, -231357719/4864406400],
   [1626361/25737600, -206937767/486440640, -61067/750680,
    49602727/81073440, -43783933/194576256, 51815011/810734400],
   [91418989/810734400, -53314099/194576256, -33094279/81073440,
    -18269/107240, 440626231/486440640, -365711063/1621468800],
   [-62551961/4864406400, 799/35280, 82588241/972881280,
    -279245719/486440640, -346583/1501360, 2312302333/2432203200],
   [-3375119/202683600, 202087559/4864406400, -11297731/810734400,
    61008503/1621468800, -1360092253/2432203200, -10677/42896]]

/-- `sbp_upwind_7th(m, h)` from `upwind.py`.  For `m < 6` the 6-by-6 block
assignments fail with a numpy shape `ValueError`. -/
def sbp_upwind_7th (m : ℕ) (h : ℚ) : Except SbpError UpwindOp :=
  if 6 ≤ m then
    .ok (mkUpwind m h 6 w7
      [(-3, -1/105), (-2, 1/10), (-1, -3/5), (0, -1/4),
       (1, 1), (2, -3/10), (3, 1/15), (4, -1/140)] Qu7)
  else .error .valueError

/-! ### Generic facts about the circulant assembly -/

/-- Entry formula for `toeplitz(np.roll(np.flip(v), 1), v)`: entry `(i, j)`
is `v` at the wrapped offset `(j - i) mod m`. -/
theorem circmat_entry (m : ℕ) (v : Vec) (i j : ℕ) (hi : i < m) (hj : j < m) :
    circmat m v i j = v ((m + j - i) % m) := by
  unfold circmat toeplitz npRoll1 npFlip
  by_cases hij : i ≤ j
  · rw [if_pos hij]
    have h1 : m + j - i = m + (j - i) := by omega
    rw [h1, Nat.add_mod_left, Nat.mod_eq_of_lt (by omega)]
  · rw [if_neg hij]
    have h2 : i - j + (m - 1) = m + (i - j - 1) := by omega
    have h3 : m + j - i = m + j - i := rfl
    rw [h2, Nat.add_mod_left, Nat.mod_eq_of_lt (by omega),
      Nat.mod_eq_of_lt (by omega)]
    congr 1
    omega

/-- For an antisymmetric stencil and a grid with no wrap overlap, the values
of `buildv` at wrapped offsets `k` and `m - k` cancel. -/
theorem buildv_pair_neg (m l r : ℕ) (d : List ℚ) (hlr : l = r)
    (hanti : ∀ t, t ≤ l + r → d.getD t 0 = -d.getD (l + r - t) 0)
    (hm : l + r < m) (k : ℕ) (h1 : 1 ≤ k) (hk : k < m) :
    buildv m l r d k + buildv m l r d (m - k) = 0 := by
  subst hlr
  unfold buildv
  rcases le_or_lt k l with hkr | hkr
  · rw [if_neg (by omega), if_pos hkr, if_pos (by omega)]
    have ha := hanti (k + l) (by omega)
    have h2 : l + l - (k + l) = l - k := by omega
    have h3 : m - k + l - m = l - k := by omega
    rw [h2] at ha
    rw [h3, ha]
    ring
  · rcases le_or_lt (m - l) k with hk2 | hk2
    · rw [if_pos (by omega), if_neg (by omega), if_pos (by omega)]
      have ha := hanti (k + l - m) (by omega)
      have h2 : l + l - (k + l - m) = m - k + l := by omega
      rw [h2] at ha
      rw [ha]
      ring
    · rw [if_neg (by omega), if_neg (by omega), if_neg (by omega),
        if_neg (by omega)]
      ring

/-- For a symmetric stencil and a grid with no wrap overlap, the values of
`buildv` at wrapped offsets `k` and `m - k` agree. -/
theorem buildv_pair_eq (m l r : ℕ) (d : List ℚ) (hlr : l = r)
    (hsymm : ∀ t, t ≤ l + r → d.getD t 0 = d.getD (l + r - t) 0)
    (hm : l + r < m) (k : ℕ) (h1 : 1 ≤ k) (hk : k < m) :
    buildv m l r d k = buildv m l r d (m - k) := by
  subst hlr
  unfold buildv
  rcases le_or_lt k l with hkr | hkr
  · rw [if_neg (by omega), if_pos hkr, if_pos (by omega)]
    have ha := hsymm (k + l) (by omega)
    have h2 : l + l - (k + l) = l - k := by omega
    have h3 : m - k + l - m = l - k := by omega
    rw [h2] at ha
    rw [h3, ha]
  · rcases le_or_lt (m - l) k with hk2 | hk2
    · rw [if_pos (by omega), if_neg (by omega), if_pos (by omega)]
      have ha := hsymm (k + l - m) (by omega)
      have h2 : l + l - (k + l - m) = m - k + l := by omega
      rw [h2] at ha
      rw [ha]
    · rw [if_neg (by omega), if_neg (by omega), if_neg (by omega),
        if_neg (by omega)]

/-- The circulant of an antisymmetric stencil is skew-symmetric when the
stencil fits without overlap (`m > l + r`). -/
theorem circmat_skew (m l r : ℕ) (d : List ℚ) (hlr : l = r)
    (hanti : ∀ t, t ≤ l + r → d.getD t 0 = -d.getD (l + r - t) 0)
    (hm : l + r < m) (i j : ℕ) (hi : i < m) (hj : j < m) :
    circmat m (buildv m l r d) i j + circmat m (buildv m l r d) j i = 0 := by
  rw [circmat_entry m _ i j hi hj, circmat_entry m _ j i hj hi]
  rcases lt_trichotomy i j with hij | hij | hij
  · have e1 : (m + j - i) % m = j - i := by
      have : m + j - i = m + (j - i) := by omega
      rw [this, Nat.add_mod_left, Nat.mod_eq_of_lt (by omega)]
    have e2 : (m + i - j) % m = m - (j - i) := by
      rw [Nat.mod_eq_of_lt (by omega)]
      omega
    rw [e1, e2]
    exact buildv_pair_neg m l r d hlr hanti hm (j - i) (by omega) (by omega)
  · subst hij
    have e1 : (m + i - i) % m = 0 := by
      have : m + i - i = m := by omega
      rw [this, Nat.mod_self]
    rw [e1]
    have hc : buildv m l r d 0 = 0 := by
      subst hlr
      unfold buildv
      rw [if_neg (by omega), if_pos (by omega), Nat.zero_add]
      have ha := hanti l (by omega)
      have h2 : l + l - l = l := by omega
      rw [h2] at ha
      linarith
    rw [hc]
    ring
  · have e1 : (m + j - i) % m = m - (i - j) := by
      rw [Nat.mod_eq_of_lt (by omega)]
      omega
    have e2 : (m + i - j) % m = i - j := by
      have : m + i - j = m + (i - j) := by omega
      rw [this, Nat.add_mod_left, Nat.mod_eq_of_lt (by omega)]
    rw [e1, e2, add_comm]
    exact buildv_pair_neg m l r d hlr hanti hm (i - j) (by omega) (by omega)

/-- The circulant of a symmetric stencil is symmetric when the stencil fits
without overlap (`m > l + r`). -/
theorem circmat_symm (m l r : ℕ) (d : List ℚ) (hlr : l = r)
    (hsymm : ∀ t, t ≤ l + r → d.getD t 0 = d.getD (l + r - t) 0)
    (hm : l + r < m) (i j : ℕ) (hi : i < m) (hj : j < m) :
    circmat m (buildv m l r d) i j = circmat m (buildv m l r d) j i := by
  rw [circmat_entry m _ i j hi hj, circmat_entry m _ j i hj hi]
  rcases lt_trichotomy i j with hij | hij | hij
  · have e1 : (m + j - i) % m = j - i := by
      have : m + j - i = m + (j - i) := by omega
      rw [this, Nat.add_mod_left, Nat.mod_eq_of_lt (by omega)]
    have e2 : (m + i - j) % m = m - (j - i) := by
      rw [Nat.mod_eq_of_lt (by omega)]
      omega
    rw [e1, e2]
    exact buildv_pair_eq m l r d hlr hsymm hm (j - i) (by omega) (by omega)
  · subst hij
    rfl
  · have e1 : (m + j - i) % m = m - (i - j) := by
      rw [Nat.mod_eq_of_lt (by omega)]
      omega
    have e2 : (m + i - j) % m = i - j := by
      have : m + i - j = m + (i - j) := by omega
      rw [this, Nat.add_mod_left, Nat.mod_eq_of_lt (by omega)]
    rw [e1, e2]
    exact (buildv_pair_eq m l r d hlr hsymm hm (i - j) (by omega)
      (by omega)).symm

/-- Transfer of a sum over `Finset.range m` to a sum over `ZMod m`. -/
theorem sum_range_eq_sum_zmod (m : ℕ) [NeZero m] (f : ℕ → ℚ) :
    ∑ j in Finset.range m, f j = ∑ a : ZMod m, f a.val := by
  refine Finset.sum_nbij' (fun j => (j : ZMod m)) (fun a => a.val)
    ?_ ?_ ?_ ?_ ?_
  · intro a _
    exact Finset.mem_univ _
  · intro a _
    exact Finset.mem_range.mpr (ZMod.val_lt a)
  · intro a ha
    exact ZMod.val_natCast_of_lt (Finset.mem_range.mp ha)
  · intro a _
    exact ZMod.natCast_rightInverse a
  · intro a ha
    rw [ZMod.val_natCast_of_lt (Finset.mem_range.mp ha)]

/-- The circulant entry `(i, j)` is the wrap vector at the `ZMod m`
difference of the indices. -/
theorem circmat_entry_zmod (m : ℕ) [NeZero m] (v : Vec) (i j : ℕ)
    (hi : i < m) (hj : j < m) :
    circmat m v i j = v (((j : ZMod m) - (i : ZMod m)).val) := by
  rw [circmat_entry m v i j hi hj]
  congr 1
  have h1 : ((j : ZMod m) - (i : ZMod m)) = ((m + j - i : ℕ) : ZMod m) := by
    rw [Nat.cast_sub (by omega)]
    push_cast
    simp
  rw [h1, ZMod.val_natCast]

/-- Every row of a circulant sums to the sum of the wrap vector. -/
theorem sum_circmat_row (m : ℕ) [NeZero m] (v : Vec) (i : ℕ)
    (hi : i < m) :
    ∑ j in Finset.range m, circmat m v i j = ∑ k in Finset.range m, v k := by
  have step1 : ∑ j in Finset.range m, circmat m v i j
      = ∑ j in Finset.range m, v (((j : ZMod m) - (i : ZMod m)).val) :=
    Finset.sum_congr rfl (fun j hj =>
      circmat_entry_zmod m v i j hi (Finset.mem_range.mp hj))
  rw [step1,
    sum_range_eq_sum_zmod m (fun j => v (((j : ZMod m) - (i : ZMod m)).val))]
  have step2 : ∑ a : ZMod m, v ((((a.val : ℕ) : ZMod m) - (i : ZMod m)).val)
      = ∑ a : ZMod m, v ((a - (i : ZMod m)).val) := by
    refine Finset.sum_congr rfl (fun a _ => ?_)
    rw [ZMod.natCast_rightInverse a]
  rw [step2]
  have step3 : ∑ a : ZMod m, v ((a - (i : ZMod m)).val)
      = ∑ c : ZMod m, v c.val :=
    Fintype.sum_equiv (Equiv.subRight (i : ZMod m))
      (fun a => v ((a - (i : ZMod m)).val)) (fun c => v c.val)
      (fun a => rfl)
  rw [step3, ← sum_range_eq_sum_zmod m v]

/-- When the stencil fits without overlap, the wrap vector sums to the sum
of the stencil entries. -/
theorem sum_buildv (m l r : ℕ) (d : List ℚ) (hm : l + r < m) :
    ∑ k in Finset.range m, buildv m l r d k
      = ∑ t in Finset.range (l + r + 1), d.getD t 0 := by
  rw [Finset.range_eq_Ico,
    ← Finset.sum_Ico_consecutive _ (Nat.zero_le (m - l)) (by omega : m - l ≤ m),
    ← Finset.sum_Ico_consecutive _ (Nat.zero_le (r + 1)) (by omega : r + 1 ≤ m - l)]
  have part2 : ∑ k in Finset.Ico (r + 1) (m - l), buildv m l r d k = 0 := by
    refine Finset.sum_eq_zero (fun k hk => ?_)
    rw [Finset.mem_Ico] at hk
    unfold buildv
    rw [if_neg (by omega), if_neg (by omega)]
  have part1 : ∑ k in Finset.Ico 0 (r + 1), buildv m l r d k
      = ∑ t in Finset.Ico l (l + r + 1), d.getD t 0 := by
    rw [Finset.sum_Ico_eq_sum_range, Finset.sum_Ico_eq_sum_range]
    refine Finset.sum_congr (by congr 1; omega) (fun k hk => ?_)
    rw [Finset.mem_range] at hk
    unfold buildv
    rw [if_neg (by omega), if_pos (by omega)]
    congr 1
    omega
  have part3 : ∑ k in Finset.Ico (m - l) m, buildv m l r d k
      = ∑ t in Finset.Ico 0 l, d.getD t 0 := by
    rw [Finset.sum_Ico_eq_sum_range, Finset.sum_Ico_eq_sum_range]
    refine Finset.sum_congr (by congr 1; omega) (fun k hk => ?_)
    rw [Finset.mem_range] at hk
    unfold buildv
    rw [if_pos (by omega)]
    congr 1
    omega
  rw [part1, part2, part3, add_zero,
    ← Finset.sum_Ico_consecutive _ (Nat.zero_le l)
      (by omega : l ≤ l + r + 1)]
  exact add_comm _ _

/-! ### Reduction lemmas for the builders -/

/-- Value of `periodic_expl` without dissipation on a supported order. -/
theorem periodic_expl_eq (m : ℕ) (h : ℚ) (order : ℕ) (d : List ℚ) (l r : ℕ)
    (hs : explStencil order = .ok (d, l, r)) (hm : r < m) :
    periodic_expl m h order false =
      .ok (fun i j => h * (if i = j then 1 else 0),
           circmat m (buildv m l r d)) := by
  unfold periodic_expl
  rw [hs]
  simp only [bind, Except.bind, if_pos hm]
  rfl

/-- Value of `periodic_expl` with dissipation on a supported order. -/
theorem periodic_expl_AD_eq (m : ℕ) (h : ℚ) (order : ℕ) (d : List ℚ)
    (l r : ℕ) (d₂ : List ℚ) (l₂ r₂ : ℕ) (a : ℚ)
    (hs : explStencil order = .ok (d, l, r))
    (hs₂ : adStencil order = .ok (d₂, l₂, r₂, a))
    (hm : r < m) (hm₂ : r₂ < m) :
    periodic_expl m h order true =
      .ok (fun i j => h * (if i = j then 1 else 0),
           fun i j => circmat m (buildv m l r d) i j
             - a * circmat m (buildv m l₂ r₂ d₂) i j) := by
  unfold periodic_expl
  rw [hs]
  simp only [bind, Except.bind, if_pos hm]
  rw [hs₂]
  simp only [bind, Except.bind, if_pos hm₂]
  rfl

/-- Value of `periodic_imp` without dissipation. -/
theorem periodic_imp_eq (m : ℕ) (h : ℚ) (hm : 5 < m) :
    periodic_imp m h false =
      .ok (fun i j => h * circmat m (buildv m 5 5 impHd) i j,
           circmat m (buildv m 5 5 impQd)) := by
  unfold periodic_imp
  simp only [if_pos hm]
  rfl

/-- Value of `periodic_imp` with dissipation. -/
theorem periodic_imp_AD_eq (m : ℕ) (h : ℚ) (hm : 6 < m) :
    periodic_imp m h true =
      .ok (fun i j => h * circmat m (buildv m 5 5 impHd) i j,
           fun i j => circmat m (buildv m 5 5 impQd) i j
             - 1/5544 * circmat m (buildv m 6 6 impADd) i j) := by
  unfold periodic_imp
  simp only [if_pos (by omega : 5 < m), if_pos hm]
  rfl

/-! ### Claim C1 -/

/-- Helper: skew-symmetry and identity norm for one supported order. -/
theorem expl_case_skew (m : ℕ) (h : ℚ) (order : ℕ) (d : List ℚ) (l r : ℕ)
    (hs : explStencil order = .ok (d, l, r)) (hlr : l = r)
    (hanti : ∀ t, t ≤ l + r → d.getD t 0 = -d.getD (l + r - t) 0)
    (hm : l + r < m) :
    ∃ H Q : Mat, periodic_expl m h order false = .ok (H, Q) ∧
      (∀ i j, i < m → j < m → Q i j + Q j i = 0) ∧
      (∀ i j, i < m → j < m → H i j = h * (if i = j then 1 else 0)) :=
  ⟨_, _, periodic_expl_eq m h order d l r hs (by omega),
    fun i j hi hj => circmat_skew m l r d hlr hanti hm i j hi hj,
    fun i j _ _ => rfl⟩

/-- C1: for every order in {2,4,6,8,10,12}, every `m > 2l` (`2l = order` is
the stencil width) and every `h > 0`, `periodic_expl(m, h, order, False)`
returns a pair `(H, Q)` with `Q` exactly skew-symmetric and `H` equal to
`h` times the m-by-m identity. -/
theorem C1_expl_skew_and_identity_norm (m : ℕ) (h : ℚ) (order : ℕ)
    (horder : order = 2 ∨ order = 4 ∨ order = 6 ∨ order = 8 ∨
      order = 10 ∨ order = 12)
    (hm : order < m) (hh : 0 < h) :
    ∃ H Q : Mat, periodic_expl m h order false = .ok (H, Q) ∧
      (∀ i j, i < m → j < m → Q i j + Q j i = 0) ∧
      (∀ i j, i < m → j < m → H i j = h * (if i = j then 1 else 0)) := by
  rcases horder with h2 | h4 | h6 | h8 | h10 | h12
  · subst h2
    exact expl_case_skew m h 2 _ 1 1 rfl rfl
      (by intro t ht; interval_cases t <;> norm_num [List.getD]) (by omega)
  · subst h4
    exact expl_case_skew m h 4 _ 2 2 rfl rfl
      (by intro t ht; interval_cases t <;> norm_num [List.getD]) (by omega)
  · subst h6
    exact expl_case_skew m h 6 _ 3 3 rfl rfl
      (by intro t ht; interval_cases t <;> norm_num [List.getD]) (by omega)
  · subst h8
    exact expl_case_skew m h 8 _ 4 4 rfl rfl
      (by intro t ht; interval_cases t <;> norm_num [List.getD]) (by omega)
  · subst h10
    exact expl_case_skew m h 10 _ 5 5 rfl rfl
      (by intro t ht; interval_cases t <;> norm_num [List.getD]) (by omega)
  · subst h12
    exact expl_case_skew m h 12 _ 6 6 rfl rfl
      (by intro t ht; interval_cases t <;> norm_num [List.getD]) (by omega)

/-- Witness for C1 at `m = 13`, `h = 1`, `order = 12`. -/
theorem C1_witness :
    (12 = 2 ∨ 12 = 4 ∨ 12 = 6 ∨ 12 = 8 ∨ 12 = 10 ∨ 12 = 12) ∧ 12 < 13 ∧
      (0 : ℚ) < 1 ∧
      (∃ H Q : Mat, periodic_expl 13 1 12 false = .ok (H, Q) ∧
        (∀ i j, i < 13 → j < 13 → Q i j + Q j i = 0) ∧
        (∀ i j, i < 13 → j < 13 → H i j = 1 * (if i = j then 1 else 0))) :=
  ⟨by decide, by decide, by norm_num,
    C1_expl_skew_and_identity_norm 13 1 12 (by decide) (by decide)
      (by norm_num)⟩

/-- `periodic_expl` raises `IndexError` when the grid cannot hold the first
wrap loop (`m ≤ r`), for either dissipation flag. -/
theorem periodic_expl_small_eq (m : ℕ) (h : ℚ) (order : ℕ) (use_AD : Bool)
    (d : List ℚ) (l r : ℕ) (hs : explStencil order = .ok (d, l, r))
    (hm : ¬ r < m) :
    periodic_expl m h order use_AD = .error .indexError := by
  unfold periodic_expl
  rw [hs]
  simp only [bind, Except.bind, if_neg hm]
  rfl

/-- `periodic_expl` with dissipation raises `IndexError` when the grid
cannot hold the dissipation wrap loop. -/
theorem periodic_expl_AD_small_eq (m : ℕ) (h : ℚ) (order : ℕ) (d : List ℚ)
    (l r : ℕ) (d₂ : List ℚ) (l₂ r₂ : ℕ) (a : ℚ)
    (hs : explStencil order = .ok (d, l, r))
    (hs₂ : adStencil order = .ok (d₂, l₂, r₂, a))
    (hm : r < m) (hm₂ : ¬ r₂ < m) :
    periodic_expl m h order true = .error .indexError := by
  unfold periodic_expl
  rw [hs]
  simp only [bind, Except.bind, if_pos hm]
  rw [hs₂]
  simp only [bind, Except.bind, if_neg hm₂]
  rfl

/-- On a supported order (with its dissipation entry) `periodic_expl` never
reports `NotImplementedError`. -/
theorem expl_supported_ne_notImpl (m : ℕ) (h : ℚ) (order : ℕ)
    (use_AD : Bool) (d : List ℚ) (l r : ℕ) (s₂ : List ℚ × ℕ × ℕ × ℚ)
    (hs : explStencil order = .ok (d, l, r)) (hs₂ : adStencil order = .ok s₂) :
    periodic_expl m h order use_AD ≠ .error .notImplemented := by
  obtain ⟨d₂, l₂, r₂, a⟩ := s₂
  intro hE
  by_cases hr : r < m
  · cases use_AD
    · rw [periodic_expl_eq m h order d l r hs hr] at hE
      simp at hE
    · by_cases hr₂ : r₂ < m
      · rw [periodic_expl_AD_eq m h order d l r d₂ l₂ r₂ a hs hs₂ hr hr₂]
          at hE
        simp at hE
      · rw [periodic_expl_AD_small_eq m h order d l r d₂ l₂ r₂ a hs hs₂ hr
          hr₂] at hE
        simp at hE
  · rw [periodic_expl_small_eq m h order use_AD d l r hs hr] at hE
    simp at hE

/-! ### Claim C8 -/

/-- C8: `periodic_expl(m, h, order, use_AD)` fails with the unsupported
order error (`NotImplementedError`) exactly when `order` is not in
{2,4,6,8,10,12}; in that case nothing is returned. -/
theorem C8_unsupported_order_iff (m : ℕ) (h : ℚ) (order : ℕ)
    (use_AD : Bool) :
    periodic_expl m h order use_AD = .error .notImplemented ↔
      ¬(order = 2 ∨ order = 4 ∨ order = 6 ∨ order = 8 ∨ order = 10 ∨
        order = 12) := by
  constructor
  · intro hE hsup
    rcases hsup with h' | h' | h' | h' | h' | h'
    · subst h'
      exact expl_supported_ne_notImpl m h 2 use_AD _ 1 1 _ rfl rfl hE
    · subst h'
      exact expl_supported_ne_notImpl m h 4 use_AD _ 2 2 _ rfl rfl hE
    · subst h'
      exact expl_supported_ne_notImpl m h 6 use_AD _ 3 3 _ rfl rfl hE
    · subst h'
      exact expl_supported_ne_notImpl m h 8 use_AD _ 4 4 _ rfl rfl hE
    · subst h'
      exact expl_supported_ne_notImpl m h 10 use_AD _ 5 5 _ rfl rfl hE
    · subst h'
      exact expl_supported_ne_notImpl m h 12 use_AD _ 6 6 _ rfl rfl hE
  · intro hsup
    push_neg at hsup
    obtain ⟨n2, n4, n6, n8, n10, n12⟩ := hsup
    have hs : explStencil order = .error .notImplemented := by
      unfold explStencil
      rw [if_neg n2, if_neg n4, if_neg n6, if_neg n8, if_neg n10, if_neg n12]
    unfold periodic_expl
    rw [hs]
    rfl

/-! ### Claim C3 -/

/-- C3 evidence: no grid-size validation exists in the code.  At `m = 2`,
`order = 12` the builder fails with numpy's `IndexError` (not a dedicated
grid-size error), and at `m = 8`, `order = 12` — where `m ≤ 2l = 12` so the
stencil cannot fit without overlap — the builder silently returns a
corrupted matrix (not even skew-symmetric) instead of raising. -/
theorem C3_no_grid_size_validation :
    periodic_expl 2 1 12 false = .error .indexError ∧
      ∃ H Q : Mat, periodic_expl 8 1 12 false = .ok (H, Q) ∧
        Q 0 2 + Q 2 0 ≠ 0 := by
  constructor
  · exact periodic_expl_small_eq 2 1 12 false _ 6 6 rfl (by omega)
  · refine ⟨_, _, periodic_expl_eq 8 1 12 _ 6 6 rfl (by omega), ?_⟩
    norm_num [circmat, toeplitz, npRoll1, npFlip, buildv, List.getD]

/-! ### Claim C10 -/

/-- C10: the returned norm matrix `H` does not depend on the dissipation
flag, for both periodic builders: the same `H` is returned with and without
dissipation; only `Q` changes. -/
theorem C10_H_independent_of_dissipation :
    (∀ (m : ℕ) (h : ℚ) (order : ℕ),
      (order = 2 ∨ order = 4 ∨ order = 6 ∨ order = 8 ∨ order = 10 ∨
        order = 12) → order / 2 < m →
      ∃ H Q₁ Q₂ : Mat, periodic_expl m h order true = .ok (H, Q₁) ∧
        periodic_expl m h order false = .ok (H, Q₂)) ∧
    (∀ (m : ℕ) (h : ℚ), 6 < m →
      ∃ H Q₁ Q₂ : Mat, periodic_imp m h true = .ok (H, Q₁) ∧
        periodic_imp m h false = .ok (H, Q₂)) := by
  constructor
  · intro m h order hsup hm
    rcases hsup with h' | h' | h' | h' | h' | h' <;> subst h'
    · exact ⟨_, _, _,
        periodic_expl_AD_eq m h 2 _ 1 1 _ 1 1 (1/2) rfl rfl (by omega)
          (by omega), periodic_expl_eq m h 2 _ 1 1 rfl (by omega)⟩
    · exact ⟨_, _, _,
        periodic_expl_AD_eq m h 4 _ 2 2 _ 2 2 (1/12) rfl rfl (by omega)
          (by omega), periodic_expl_eq m h 4 _ 2 2 rfl (by omega)⟩
    · exact ⟨_, _, _,
        periodic_expl_AD_eq m h 6 _ 3 3 _ 3 3 (1/60) rfl rfl (by omega)
          (by omega), periodic_expl_eq m h 6 _ 3 3 rfl (by omega)⟩
    · exact ⟨_, _, _,
        periodic_expl_AD_eq m h 8 _ 4 4 _ 4 4 (1/280) rfl rfl (by omega)
          (by omega), periodic_expl_eq m h 8 _ 4 4 rfl (by omega)⟩
    · exact ⟨_, _, _,
        periodic_expl_AD_eq m h 10 _ 5 5 _ 5 5 (1/1260) rfl rfl (by omega)
          (by omega), periodic_expl_eq m h 10 _ 5 5 rfl (by omega)⟩
    · exact ⟨_, _, _,
        periodic_expl_AD_eq m h 12 _ 6 6 _ 6 6 (1/5544) rfl rfl (by omega)
          (by omega), periodic_expl_eq m h 12 _ 6 6 rfl (by omega)⟩
  · intro m h hm
    exact ⟨_, _, _, periodic_imp_AD_eq m h hm, periodic_imp_eq m h (by omega)⟩

/-- Witness for C10 at `m = 7`, `order = 2` and `m = 13` (implicit). -/
theorem C10_witness :
    ((2 = 2 ∨ 2 = 4 ∨ 2 = 6 ∨ 2 = 8 ∨ 2 = 10 ∨ 2 = 12) ∧ 2 / 2 < 7 ∧
      (∃ H Q₁ Q₂ : Mat, periodic_expl 7 1 2 true = .ok (H, Q₁) ∧
        periodic_expl 7 1 2 false = .ok (H, Q₂))) ∧
    (6 < 13 ∧ ∃ H Q₁ Q₂ : Mat, periodic_imp 13 1 true = .ok (H, Q₁) ∧
      periodic_imp 13 1 false = .ok (H, Q₂)) :=
  ⟨⟨by decide, by decide,
    C10_H_independent_of_dissipation.1 7 1 2 (by decide) (by decide)⟩,
   ⟨by decide, C10_H_independent_of_dissipation.2 13 1 (by decide)⟩⟩

/-! ### Claim C9 -/

/-- C9: for `m > 12` the dissipation term added by the implicit builder is
exactly the order-12 explicit dissipation term: the `Q` difference between
the dissipated and undissipated implicit operators agrees entrywise with
the `Q` difference between the dissipated and undissipated order-12
explicit operators. -/
theorem C9_imp_dissipation_is_order12 (m : ℕ) (h : ℚ) (hm : 12 < m)
    (hh : 0 < h) :
    ∃ Hi Qi Hia Qia He Qe Hea Qea : Mat,
      periodic_imp m h false = .ok (Hi, Qi) ∧
      periodic_imp m h true = .ok (Hia, Qia) ∧
      periodic_expl m h 12 false = .ok (He, Qe) ∧
      periodic_expl m h 12 true = .ok (Hea, Qea) ∧
      ∀ i j, Qia i j - Qi i j = Qea i j - Qe i j := by
  refine ⟨_, _, _, _, _, _, _, _, periodic_imp_eq m h (by omega),
    periodic_imp_AD_eq m h (by omega),
    periodic_expl_eq m h 12 _ 6 6 rfl (by omega),
    periodic_expl_AD_eq m h 12 _ 6 6 _ 6 6 (1/5544) rfl rfl (by omega)
      (by omega),
    fun i j => ?_⟩
  simp only [impADd]
  ring

/-- Witness for C9 at `m = 13`, `h = 1`. -/
theorem C9_witness :
    12 < 13 ∧ (0 : ℚ) < 1 ∧
      (∃ Hi Qi Hia Qia He Qe Hea Qea : Mat,
        periodic_imp 13 1 false = .ok (Hi, Qi) ∧
        periodic_imp 13 1 true = .ok (Hia, Qia) ∧
        periodic_expl 13 1 12 false = .ok (He, Qe) ∧
        periodic_expl 13 1 12 true = .ok (Hea, Qea) ∧
        ∀ i j, Qia i j - Qi i j = Qea i j - Qe i j) :=
  ⟨by decide, by norm_num, C9_imp_dissipation_is_order12 13 1 (by decide)
    (by norm_num)⟩

/-! ### Claim C5 -/

/-- Row sums of a plain stencil circulant vanish when the stencil entries
sum to zero. -/
theorem rowsum_circ_zero (m l r : ℕ) (d : List ℚ) (hm : l + r < m)
    (hsum : ∑ t in Finset.range (l + r + 1), d.getD t 0 = 0) (i : ℕ)
    (hi : i < m) :
    ∑ j in Finset.range m, circmat m (buildv m l r d) i j = 0 := by
  haveI : NeZero m := ⟨by omega⟩
  rw [sum_circmat_row m _ i hi, sum_buildv m l r d hm, hsum]

/-- Row sums of a dissipated difference matrix vanish when both stencils
sum to zero. -/
theorem rowsum_circ_sub_zero (m l r l₂ r₂ : ℕ) (d d₂ : List ℚ) (a : ℚ)
    (hm : l + r < m) (hm₂ : l₂ + r₂ < m)
    (hsum : ∑ t in Finset.range (l + r + 1), d.getD t 0 = 0)
    (hsum₂ : ∑ t in Finset.range (l₂ + r₂ + 1), d₂.getD t 0 = 0) (i : ℕ)
    (hi : i < m) :
    ∑ j in Finset.range m, (circmat m (buildv m l r d) i j
      - a * circmat m (buildv m l₂ r₂ d₂) i j) = 0 := by
  rw [Finset.sum_sub_distrib, ← Finset.mul_sum,
    rowsum_circ_zero m l r d hm hsum i hi,
    rowsum_circ_zero m l₂ r₂ d₂ hm₂ hsum₂ i hi]
  ring

/-- C5: every periodic operator — explicit at any supported order, and
implicit, with or without artificial dissipation, for `m` large enough that
the stencils fit without overlap — returns a `Q` whose rows all sum to
zero (`Q · ones(m) = 0`). -/
theorem C5_periodic_row_sums_zero :
    (∀ (m : ℕ) (h : ℚ) (order : ℕ) (use_AD : Bool),
      (order = 2 ∨ order = 4 ∨ order = 6 ∨ order = 8 ∨ order = 10 ∨
        order = 12) → order < m →
      ∃ H Q : Mat, periodic_expl m h order use_AD = .ok (H, Q) ∧
        ∀ i, i < m → ∑ j in Finset.range m, Q i j = 0) ∧
    (∀ (m : ℕ) (h : ℚ) (use_AD : Bool), (use_AD = true → 12 < m) →
      10 < m →
      ∃ H Q : Mat, periodic_imp m h use_AD = .ok (H, Q) ∧
        ∀ i, i < m → ∑ j in Finset.range m, Q i j = 0) := by
  constructor
  · intro m h order use_AD hsup hm
    rcases hsup with h' | h' | h' | h' | h' | h' <;> subst h' <;>
      cases use_AD
    · exact ⟨_, _, periodic_expl_eq m h 2 _ 1 1 rfl (by omega),
        fun i hi => rowsum_circ_zero m 1 1 _ (by omega)
          (by norm_num [Finset.sum_range_succ, List.getD]) i hi⟩
    · exact ⟨_, _,
        periodic_expl_AD_eq m h 2 _ 1 1 _ 1 1 (1/2) rfl rfl (by omega)
          (by omega),
        fun i hi => rowsum_circ_sub_zero m 1 1 1 1 _ _ (1/2) (by omega)
          (by omega) (by norm_num [Finset.sum_range_succ, List.getD])
          (by norm_num [Finset.sum_range_succ, List.getD]) i hi⟩
    · exact ⟨_, _, periodic_expl_eq m h 4 _ 2 2 rfl (by omega),
        fun i hi => rowsum_circ_zero m 2 2 _ (by omega)
          (by norm_num [Finset.sum_range_succ, List.getD]) i hi⟩
    · exact ⟨_, _,
        periodic_expl_AD_eq m h 4 _ 2 2 _ 2 2 (1/12) rfl rfl (by omega)
          (by omega),
        fun i hi => rowsum_circ_sub_zero m 2 2 2 2 _ _ (1/12) (by omega)
          (by omega) (by norm_num [Finset.sum_range_succ, List.getD])
          (by norm_num [Finset.sum_range_succ, List.getD]) i hi⟩
    · exact ⟨_, _, periodic_expl_eq m h 6 _ 3 3 rfl (by omega),
        fun i hi => rowsum_circ_zero m 3 3 _ (by omega)
          (by norm_num [Finset.sum_range_succ, List.getD]) i hi⟩
    · exact ⟨_, _,
        periodic_expl_AD_eq m h 6 _ 3 3 _ 3 3 (1/60) rfl rfl (by omega)
          (by omega),
        fun i hi => rowsum_circ_sub_zero m 3 3 3 3 _ _ (1/60) (by omega)
          (by omega) (by norm_num [Finset.sum_range_succ, List.getD])
          (by norm_num [Finset.sum_range_succ, List.getD]) i hi⟩
    · exact ⟨_, _, periodic_expl_eq m h 8 _ 4 4 rfl (by omega),
        fun i hi => rowsum_circ_zero m 4 4 _ (by omega)
          (by norm_num [Finset.sum_range_succ, List.getD]) i hi⟩
    · exact ⟨_, _,
        periodic_expl_AD_eq m h 8 _ 4 4 _ 4 4 (1/280) rfl rfl (by omega)
          (by omega),
        fun i hi => rowsum_circ_sub_zero m 4 4 4 4 _ _ (1/280) (by omega)
          (by omega) (by norm_num [Finset.sum_range_succ, List.getD])
          (by norm_num [Finset.sum_range_succ, List.getD]) i hi⟩
    · exact ⟨_, _, periodic_expl_eq m h 10 _ 5 5 rfl (by omega),
        fun i hi => rowsum_circ_zero m 5 5 _ (by omega)
          (by norm_num [Finset.sum_range_succ, List.getD]) i hi⟩
    · exact ⟨_, _,
        periodic_expl_AD_eq m h 10 _ 5 5 _ 5 5 (1/1260) rfl rfl (by omega)
          (by omega),
        fun i hi => rowsum_circ_sub_zero m 5 5 5 5 _ _ (1/1260) (by omega)
          (by omega) (by norm_num [Finset.sum_range_succ, List.getD])
          (by norm_num [Finset.sum_range_succ, List.getD]) i hi⟩
    · exact ⟨_, _, periodic_expl_eq m h 12 _ 6 6 rfl (by omega),
        fun i hi => rowsum_circ_zero m 6 6 _ (by omega)
          (by norm_num [Finset.sum_range_succ, List.getD]) i hi⟩
    · exact ⟨_, _,
        periodic_expl_AD_eq m h 12 _ 6 6 _ 6 6 (1/5544) rfl rfl (by omega)
          (by omega),
        fun i hi => rowsum_circ_sub_zero m 6 6 6 6 _ _ (1/5544) (by omega)
          (by omega) (by norm_num [Finset.sum_range_succ, List.getD])
          (by norm_num [Finset.sum_range_succ, List.getD]) i hi⟩
  · intro m h use_AD h12 h10
    cases use_AD
    · exact ⟨_, _, periodic_imp_eq m h (by omega),
        fun i hi => rowsum_circ_zero m 5 5 impQd (by omega)
          (by simp [impQd, Finset.sum_range_succ, List.getD]) i hi⟩
    · have hm := h12 rfl
      exact ⟨_, _, periodic_imp_AD_eq m h (by omega),
        fun i hi => rowsum_circ_sub_zero m 5 5 6 6 impQd impADd (1/5544)
          (by omega) (by omega)
          (by simp [impQd, Finset.sum_range_succ, List.getD])
          (by norm_num [impADd, Finset.sum_range_succ, List.getD]) i hi⟩

/-- Witness for C5 at `m = 13`: explicit order 12 with dissipation and the
implicit operator with dissipation. -/
theorem C5_witness :
    ((12 = 2 ∨ 12 = 4 ∨ 12 = 6 ∨ 12 = 8 ∨ 12 = 10 ∨ 12 = 12) ∧ 12 < 13 ∧
      (∃ H Q : Mat, periodic_expl 13 1 12 true = .ok (H, Q) ∧
        ∀ i, i < 13 → ∑ j in Finset.range 13, Q i j = 0)) ∧
    ((true = true → 12 < 13) ∧ 10 < 13 ∧
      (∃ H Q : Mat, periodic_imp 13 1 true = .ok (H, Q) ∧
        ∀ i, i < 13 → ∑ j in Finset.range 13, Q i j = 0)) :=
  ⟨⟨by decide, by decide,
    C5_periodic_row_sums_zero.1 13 1 12 true (by decide) (by decide)⟩,
   ⟨fun _ => by decide, by decide,
    C5_periodic_row_sums_zero.2 13 1 true (fun _ => by decide) (by decide)⟩⟩

/-! ### Claim C4 -/

/-- Value of the wrap vector at a position congruent to a signed stencil
offset `k` with `-l ≤ k ≤ r`. -/
theorem buildv_offset (m l r : ℕ) (d : List ℚ) (hm : l + r < m) (t : ℕ)
    (ht : t < m) (k : ℤ) (hkl : -(l : ℤ) ≤ k) (hkr : k ≤ (r : ℤ))
    (hcong : (t : ℤ) = k ∨ (t : ℤ) = k + m) :
    buildv m l r d t = d.getD (k + l).toNat 0 := by
  unfold buildv
  rcases hcong with hc | hc
  · rw [if_neg (by omega), if_pos (by omega)]
    congr 1
    omega
  · rw [if_pos (by omega)]
    congr 1
    omega

/-- C4: for a centered stencil of half-width `l = r` and a grid with
`m > l + r`, the circulant assembly places the stencil weight at the
wrapped offset: entry `(i, j)` equals `d[l + k]` for the (unique) signed
offset `k` with `-l ≤ k ≤ r` congruent to `j - i` modulo `m`, and equals
`0` when no stencil offset is congruent to `j - i`. -/
theorem C4_circulant_assembly (m l r : ℕ) (d : List ℚ) (hlr : l = r)
    (hm : l + r < m) (i j : ℕ) (hi : i < m) (hj : j < m) :
    (∀ k : ℤ, -(l : ℤ) ≤ k → k ≤ (r : ℤ) →
      ((j : ℤ) - (i : ℤ) - k) % (m : ℤ) = 0 →
      circmat m (buildv m l r d) i j = d.getD (k + l).toNat 0) ∧
    ((∀ k : ℤ, -(l : ℤ) ≤ k → k ≤ (r : ℤ) →
      ((j : ℤ) - (i : ℤ) - k) % (m : ℤ) ≠ 0) →
      circmat m (buildv m l r d) i j = 0) := by
  have hm0 : 0 < m := by omega
  have hQ : circmat m (buildv m l r d) i j
      = buildv m l r d ((m + j - i) % m) := circmat_entry m _ i j hi hj
  set t : ℕ := (m + j - i) % m with htdef
  have ht : t < m := Nat.mod_lt _ hm0
  obtain ⟨q, hq⟩ : ∃ q, m * q + t = m + j - i :=
    ⟨(m + j - i) / m, Nat.div_add_mod _ _⟩
  have hcast : (m : ℤ) * (q : ℤ) + (t : ℤ)
      = (m : ℤ) + (j : ℤ) - (i : ℤ) := by
    zify [show i ≤ m + j by omega] at hq
    linarith [hq]
  constructor
  · intro k hkl hkr hk0
    obtain ⟨c, hc⟩ := Int.dvd_of_emod_eq_zero hk0
    have key : (t : ℤ) - k = (m : ℤ) * (c + 1 - (q : ℤ)) := by
      rw [mul_sub, mul_add, mul_one]
      linarith [hc, hcast]
    set e : ℤ := c + 1 - (q : ℤ) with he
    have hbound1 : -(m : ℤ) < (t : ℤ) - k := by omega
    have hbound2 : (t : ℤ) - k < 2 * m := by omega
    have he01 : e = 0 ∨ e = 1 := by
      rcases lt_trichotomy e 0 with hlt | heq | hgt
      · exfalso
        have h1 : e ≤ -1 := by omega
        have h2 : (m : ℤ) * e ≤ (m : ℤ) * (-1) :=
          mul_le_mul_of_nonneg_left h1 (by positivity)
        rw [← key] at h2
        omega
      · exact Or.inl heq
      · rcases lt_trichotomy e 1 with hlt' | heq' | hgt'
        · omega
        · exact Or.inr heq'
        · exfalso
          have h1 : (2 : ℤ) ≤ e := by omega
          have h2 : (m : ℤ) * 2 ≤ (m : ℤ) * e :=
            mul_le_mul_of_nonneg_left h1 (by positivity)
          rw [← key] at h2
          omega
    rw [hQ]
    refine buildv_offset m l r d hm t ht k hkl hkr ?_
    rcases he01 with h' | h'
    · rw [h', mul_zero] at key
      exact Or.inl (by omega)
    · rw [h', mul_one] at key
      exact Or.inr (by omega)
  · intro hnone
    rw [hQ]
    unfold buildv
    by_cases hb1 : m - l ≤ t ∧ t < m
    · exfalso
      refine hnone ((t : ℤ) - m) (by omega) (by omega) ?_
      refine Int.emod_eq_zero_of_dvd ⟨(q : ℤ), by linarith [hcast]⟩
    · by_cases hb2 : t ≤ r
      · exfalso
        refine hnone (t : ℤ) (by omega) (by omega) ?_
        refine Int.emod_eq_zero_of_dvd ⟨(q : ℤ) - 1, ?_⟩
        rw [mul_sub, mul_one]
        linarith [hcast]
      · rw [if_neg hb1, if_neg hb2]

/-- Witness for C4: order-2 stencil at `m = 8` and the wrapped corner entry
`(0, 7)` (offset `-1` modulo `8`). -/
theorem C4_witness :
    (1 = 1) ∧ 1 + 1 < 8 ∧ (0 : ℕ) < 8 ∧ 7 < 8 ∧
      ((∀ k : ℤ, -(1 : ℤ) ≤ k → k ≤ (1 : ℤ) →
        ((7 : ℤ) - (0 : ℤ) - k) % (8 : ℤ) = 0 →
        circmat 8 (buildv 8 1 1 [-1/2, 0, 1/2]) 0 7
          = ([-1/2, 0, 1/2] : List ℚ).getD (k + 1).toNat 0) ∧
      ((∀ k : ℤ, -(1 : ℤ) ≤ k → k ≤ (1 : ℤ) →
        ((7 : ℤ) - (0 : ℤ) - k) % (8 : ℤ) ≠ 0) →
        circmat 8 (buildv 8 1 1 [-1/2, 0, 1/2]) 0 7 = 0)) :=
  ⟨rfl, by decide, by decide, by decide,
    C4_circulant_assembly 8 1 1 [-1/2, 0, 1/2] rfl (by decide) 0 7
      (by decide) (by decide)⟩

/-! ### Claim C6 -/

/-- Value of `periodic_variable_wide` on a supported order. -/
theorem periodic_variable_wide_eq (m : ℕ) (h : ℚ) (order : ℕ) (d : List ℚ)
    (l r : ℕ) (hs : explStencil order = .ok (d, l, r)) (hm : r < m) :
    periodic_variable_wide m h order =
      .ok (fun c => fun i j => -1/h *
        matMul m (matMul m (circmat m (buildv m l r d)) (diagM c))
          (circmat m (buildv m l r d)) i j) := by
  unfold periodic_variable_wide
  rw [periodic_expl_eq m h order d l r hs hm]
  rfl

/-- Multiplying by `diag(c)` on the right scales the columns. -/
theorem matMul_diag_entry (m : ℕ) (Q : Mat) (c : Vec) (i k : ℕ)
    (hk : k < m) :
    matMul m Q (diagM c) i k = Q i k * c k := by
  unfold matMul diagM
  rw [Finset.sum_eq_single k]
  · rw [if_pos rfl]
  · intro b _ hbk
    rw [if_neg hbk, mul_zero]
  · intro hk'
    exact absurd (Finset.mem_range.mpr hk) hk'

/-- C6: the closure `M` returned by `periodic_variable_wide(m, h, order)`
satisfies `M(c) = -(1/h) · Q · diag(c) · Q` for every coefficient vector
`c`, where `Q` is the matrix of `periodic_expl(m, h, order)` with
dissipation disabled; in particular `M(ones) = -(1/h) · Q · Q`. -/
theorem C6_variable_wide_contract (m : ℕ) (h : ℚ) (order : ℕ)
    (hsup : order = 2 ∨ order = 4 ∨ order = 6 ∨ order = 8 ∨ order = 10 ∨
      order = 12)
    (hm : order < m) (hh : 0 < h) :
    ∃ (M : Vec → Mat) (H Q : Mat),
      periodic_variable_wide m h order = .ok M ∧
      periodic_expl m h order false = .ok (H, Q) ∧
      (∀ (c : Vec) (i j : ℕ), M c i j
        = -1/h * ∑ k in Finset.range m, Q i k * c k * Q k j) ∧
      (∀ i j : ℕ, M (fun _ => 1) i j
        = -1/h * ∑ k in Finset.range m, Q i k * Q k j) := by
  have main : ∀ (d : List ℚ) (l r : ℕ), explStencil order = .ok (d, l, r) →
      r < m →
      ∃ (M : Vec → Mat) (H Q : Mat),
        periodic_variable_wide m h order = .ok M ∧
        periodic_expl m h order false = .ok (H, Q) ∧
        (∀ (c : Vec) (i j : ℕ), M c i j
          = -1/h * ∑ k in Finset.range m, Q i k * c k * Q k j) ∧
        (∀ i j : ℕ, M (fun _ => 1) i j
          = -1/h * ∑ k in Finset.range m, Q i k * Q k j) := by
    intro d l r hs hr
    have hform : ∀ (c : Vec) (i j : ℕ),
        -1/h * matMul m (matMul m (circmat m (buildv m l r d)) (diagM c))
          (circmat m (buildv m l r d)) i j
        = -1/h * ∑ k in Finset.range m, circmat m (buildv m l r d) i k *
            c k * circmat m (buildv m l r d) k j := by
      intro c i j
      congr 1
      unfold matMul
      refine Finset.sum_congr rfl (fun k hk => ?_)
      rw [show (∑ b in Finset.range m, circmat m (buildv m l r d) i b *
          diagM c b k) = circmat m (buildv m l r d) i k * c k from
        matMul_diag_entry m _ c i k (Finset.mem_range.mp hk)]
    refine ⟨_, _, _, periodic_variable_wide_eq m h order d l r hs hr,
      periodic_expl_eq m h order d l r hs hr, hform, fun i j => ?_⟩
    rw [hform (fun _ => 1) i j]
    congr 1
    exact Finset.sum_congr rfl (fun k _ => by ring)
  rcases hsup with h' | h' | h' | h' | h' | h' <;> subst h'
  · exact main _ 1 1 rfl (by omega)
  · exact main _ 2 2 rfl (by omega)
  · exact main _ 3 3 rfl (by omega)
  · exact main _ 4 4 rfl (by omega)
  · exact main _ 5 5 rfl (by omega)
  · exact main _ 6 6 rfl (by omega)

/-- Witness for C6 at `m = 9`, `h = 1`, `order = 4`. -/
theorem C6_witness :
    (4 = 2 ∨ 4 = 4 ∨ 4 = 6 ∨ 4 = 8 ∨ 4 = 10 ∨ 4 = 12) ∧ 4 < 9 ∧
      (0 : ℚ) < 1 ∧
      (∃ (M : Vec → Mat) (H Q : Mat),
        periodic_variable_wide 9 1 4 = .ok M ∧
        periodic_expl 9 1 4 false = .ok (H, Q) ∧
        (∀ (c : Vec) (i j : ℕ), M c i j
          = -1/1 * ∑ k in Finset.range 9, Q i k * c k * Q k j) ∧
        (∀ i j : ℕ, M (fun _ => 1) i j
          = -1/1 * ∑ k in Finset.range 9, Q i k * Q k j)) :=
  ⟨by decide, by decide, by norm_num,
    C6_variable_wide_contract 9 1 4 (by decide) (by decide) (by norm_num)⟩

/-! ### Claim C2 -/

/-- Counterexample to C2 as stated: for the third-order upwind builder at
`m = 9`, the interior diagonal entry `(4, 4)` of `Qp + Qpᵀ` is `-1`, while
`e_r e_rᵀ - e_l e_lᵀ` vanishes there.  `Qp + Qpᵀ` is not the boundary
difference form: an upwind `Qp` carries a nonzero symmetric (dissipative)
part in the interior. -/
theorem C2_counterexample :
    ∃ op : UpwindOp, sbp_upwind_3rd 9 1 = .ok op ∧
      ¬(op.Qp 4 4 + op.Qp 4 4
        = op.e_r 4 * op.e_r 4 - op.e_l 4 * op.e_l 4) := by
  refine ⟨_, rfl, ?_⟩
  norm_num [mkUpwind, bandSum, bandOnes, Qu3, List.getD]

/-- C2 amended: each upwind builder returns `Qm = -Qpᵀ` exactly, and the
SBP identity holds across the pair once the `±½` boundary corrections are
folded in: `(Qp - ½ e_l e_lᵀ + ½ e_r e_rᵀ) + (Qm - ½ e_l e_lᵀ + ½ e_r e_rᵀ)ᵀ
= e_r e_rᵀ - e_l e_lᵀ` (rather than `Qp + Qpᵀ` alone equalling the boundary
form). -/
theorem C2_amended_upwind_sbp_identity (m : ℕ) (h : ℚ) (hm : 8 ≤ m)
    (op : UpwindOp)
    (hop : sbp_upwind_3rd m h = .ok op ∨ sbp_upwind_5th m h = .ok op ∨
      (12 ≤ m ∧ sbp_upwind_7th m h = .ok op)) (i j : ℕ) :
    op.Qm j i = -(op.Qp i j) ∧
      (op.Qp i j - 1/2 * (op.e_l i * op.e_l j)
          + 1/2 * (op.e_r i * op.e_r j))
        + (op.Qm j i - 1/2 * (op.e_l j * op.e_l i)
          + 1/2 * (op.e_r j * op.e_r i))
        = op.e_r i * op.e_r j - op.e_l i * op.e_l j := by
  have main : ∀ (b : ℕ) (w : List ℚ) (bands : List (ℤ × ℚ))
      (Qu : List (List ℚ)), op = mkUpwind m h b w bands Qu →
      op.Qm j i = -(op.Qp i j) ∧
        (op.Qp i j - 1/2 * (op.e_l i * op.e_l j)
            + 1/2 * (op.e_r i * op.e_r j))
          + (op.Qm j i - 1/2 * (op.e_l j * op.e_l i)
            + 1/2 * (op.e_r j * op.e_r i))
          = op.e_r i * op.e_r j - op.e_l i * op.e_l j := by
    rintro b w bands Qu rfl
    refine ⟨rfl, ?_⟩
    have hqm : (mkUpwind m h b w bands Qu).Qm j i
        = -((mkUpwind m h b w bands Qu).Qp i j) := rfl
    rw [hqm]
    ring
  rcases hop with hop | hop | ⟨hm', hop⟩
  · have hred : sbp_upwind_3rd m h
        = .ok (mkUpwind m h 4 w3 [(-1, -1/3), (0, -1/2), (1, 1), (2, -1/6)]
          Qu3) := by
      unfold sbp_upwind_3rd
      rw [if_pos (by omega : 4 ≤ m)]
    rw [hred] at hop
    simp only [Except.ok.injEq] at hop
    exact main _ _ _ _ hop.symm
  · have hred : sbp_upwind_5th m h
        = .ok (mkUpwind m h 4 w5 [(-2, 1/20), (-1, -1/2), (0, -1/3), (1, 1),
          (2, -1/4), (3, 1/30)] Qu5) := by
      unfold sbp_upwind_5th
      rw [if_pos (by omega : 4 ≤ m)]
    rw [hred] at hop
    simp only [Except.ok.injEq] at hop
    exact main _ _ _ _ hop.symm
  · have hred : sbp_upwind_7th m h
        = .ok (mkUpwind m h 6 w7 [(-3, -1/105), (-2, 1/10), (-1, -3/5),
          (0, -1/4), (1, 1), (2, -3/10), (3, 1/15), (4, -1/140)] Qu7) := by
      unfold sbp_upwind_7th
      rw [if_pos (by omega : 6 ≤ m)]
    rw [hred] at hop
    simp only [Except.ok.injEq] at hop
    exact main _ _ _ _ hop.symm

/-- The third-order upwind operator value, `m = 12`, `h = 1` (used by the
witness below). -/
def upwindOp3c : UpwindOp :=
  mkUpwind 12 1 4 w3 [(-1, -1/3), (0, -1/2), (1, 1), (2, -1/6)] Qu3

/-- Witness for the amended C2 at `m = 12`, `h = 1`, third-order builder,
entry `(0, 0)`. -/
theorem C2_amended_witness :
    8 ≤ 12 ∧
    (sbp_upwind_3rd 12 1 = .ok upwindOp3c ∨
      sbp_upwind_5th 12 1 = .ok upwindOp3c ∨
      (12 ≤ 12 ∧ sbp_upwind_7th 12 1 = .ok upwindOp3c)) ∧
    (upwindOp3c.Qm 0 0 = -(upwindOp3c.Qp 0 0) ∧
      (upwindOp3c.Qp 0 0 - 1/2 * (upwindOp3c.e_l 0 * upwindOp3c.e_l 0)
          + 1/2 * (upwindOp3c.e_r 0 * upwindOp3c.e_r 0))
        + (upwindOp3c.Qm 0 0 - 1/2 * (upwindOp3c.e_l 0 * upwindOp3c.e_l 0)
          + 1/2 * (upwindOp3c.e_r 0 * upwindOp3c.e_r 0))
        = upwindOp3c.e_r 0 * upwindOp3c.e_r 0
          - upwindOp3c.e_l 0 * upwindOp3c.e_l 0) :=
  ⟨by decide, Or.inl rfl,
    C2_amended_upwind_sbp_identity 12 1 (by decide) upwindOp3c
      (Or.inl rfl) 0 0⟩

/-! ### Claim C7

Positive definiteness of the implicit norm matrix is proved through an
exact rational spectral-factorization certificate: the norm stencil is the
autocorrelation of a degree-5 filter `gfac` (giving a sum-of-squares
quadratic form) plus a remainder stencil that is strictly diagonally
dominant. -/

/-- Rational spectral-factor certificate for the implicit norm stencil. -/
def gfac : List ℚ :=
  [139779/100000000, 107233/10000000, -4561257/100000000,
   -2484913/50000000, 25192003/50000000, 28842327/50000000]

/-- Cyclic autocorrelation of a grid function at lag `t`. -/
def cor (m : ℕ) [NeZero m] (y : ZMod m → ℚ) (t : ZMod m) : ℚ :=
  ∑ b : ZMod m, y b * y (b + t)

/-- Autocorrelation of the certificate filter at wrap position `u`
(`u = 5` is lag zero). -/
def rhoG (u : ℕ) : ℚ :=
  ∑ j in Finset.range 6, ∑ j' in Finset.range 6,
    if j' + 5 = j + u then gfac.getD j 0 * gfac.getD j' 0 else 0

/-- Remainder stencil: implicit norm stencil minus the filter
autocorrelation. -/
def rkG (u : ℕ) : ℚ := impHd.getD u 0 - rhoG u

/-- A cyclic shift does not change a sum over `ZMod m`. -/
theorem sum_shift (m : ℕ) [NeZero m] (f : ZMod m → ℚ) (t : ZMod m) :
    ∑ b : ZMod m, f (b + t) = ∑ b : ZMod m, f b :=
  Fintype.sum_equiv (Equiv.addRight t) _ _ (fun _ => rfl)

/-- Zero-lag autocorrelation is the sum of squares. -/
theorem cor_zero_eq (m : ℕ) [NeZero m] (y : ZMod m → ℚ) :
    cor m y 0 = ∑ b : ZMod m, y b * y b := by
  unfold cor
  exact Finset.sum_congr rfl (fun b _ => by rw [add_zero])

/-- Zero-lag autocorrelation is nonnegative. -/
theorem cor_zero_nonneg (m : ℕ) [NeZero m] (y : ZMod m → ℚ) :
    0 ≤ cor m y 0 := by
  rw [cor_zero_eq]
  exact Finset.sum_nonneg (fun b _ => mul_self_nonneg _)

/-- Zero-lag autocorrelation is positive for a nonzero grid function. -/
theorem cor_zero_pos (m : ℕ) [NeZero m] (y : ZMod m → ℚ) (a : ZMod m)
    (ha : y a ≠ 0) : 0 < cor m y 0 := by
  rw [cor_zero_eq]
  refine Finset.sum_pos' (fun b _ => mul_self_nonneg _) ⟨a, Finset.mem_univ a,
    ?_⟩
  exact mul_self_pos.mpr ha

/-- Every autocorrelation lag is at most the zero lag. -/
theorem cor_le_zero_lag (m : ℕ) [NeZero m] (y : ZMod m → ℚ) (t : ZMod m) :
    cor m y t ≤ cor m y 0 := by
  have hs : 0 ≤ ∑ b : ZMod m, (y b - y (b + t)) * (y b - y (b + t)) :=
    Finset.sum_nonneg (fun b _ => mul_self_nonneg _)
  have hexp : ∑ b : ZMod m, (y b - y (b + t)) * (y b - y (b + t))
      = cor m y 0 + cor m y 0 - (cor m y t + cor m y t) := by
    have h1 : ∑ b : ZMod m, (y b - y (b + t)) * (y b - y (b + t))
        = ∑ b : ZMod m, (y b * y b + y (b + t) * y (b + t)
          - (y b * y (b + t) + y b * y (b + t))) :=
      Finset.sum_congr rfl (fun b _ => by ring)
    rw [h1, Finset.sum_sub_distrib, Finset.sum_add_distrib,
      Finset.sum_add_distrib,
      sum_shift m (fun b => y b * y b) t, ← cor_zero_eq]
    unfold cor
    ring
  linarith [hexp ▸ hs]

/-- Every autocorrelation lag is at least minus the zero lag. -/
theorem cor_ge_neg_zero_lag (m : ℕ) [NeZero m] (y : ZMod m → ℚ)
    (t : ZMod m) : -(cor m y 0) ≤ cor m y t := by
  have hs : 0 ≤ ∑ b : ZMod m, (y b + y (b + t)) * (y b + y (b + t)) :=
    Finset.sum_nonneg (fun b _ => mul_self_nonneg _)
  have hexp : ∑ b : ZMod m, (y b + y (b + t)) * (y b + y (b + t))
      = cor m y 0 + cor m y 0 + (cor m y t + cor m y t) := by
    have h1 : ∑ b : ZMod m, (y b + y (b + t)) * (y b + y (b + t))
        = ∑ b : ZMod m, (y b * y b + y (b + t) * y (b + t)
          + (y b * y (b + t) + y b * y (b + t))) :=
      Finset.sum_congr rfl (fun b _ => by ring)
    rw [h1, Finset.sum_add_distrib, Finset.sum_add_distrib,
      Finset.sum_add_distrib,
      sum_shift m (fun b => y b * y b) t, ← cor_zero_eq]
    unfold cor
    ring
  linarith [hexp ▸ hs]

/-- Casting the value of a `ZMod m` element back is the identity. -/
theorem natCast_val_self (m : ℕ) [NeZero m] (t : ZMod m) :
    ((t.val : ℕ) : ZMod m) = t :=
  ZMod.natCast_rightInverse t

/-- A circulant quadratic form over `ZMod m` collapses to a lag sum against
the autocorrelation. -/
theorem qf_to_cor (m : ℕ) [NeZero m] (w : Vec) (y : ZMod m → ℚ) :
    ∑ a : ZMod m, ∑ b : ZMod m, y a * w ((b - a).val) * y b
      = ∑ t : ZMod m, w t.val * cor m y t := by
  have step1 : ∀ a : ZMod m, ∑ b : ZMod m, y a * w ((b - a).val) * y b
      = ∑ t : ZMod m, y a * w t.val * y (a + t) := by
    intro a
    refine Fintype.sum_equiv (Equiv.subRight a) _ _ (fun b => ?_)
    show y a * w ((b - a).val) * y b = y a * w ((b - a).val) * y (a + (b - a))
    rw [show a + (b - a) = b by ring]
  calc ∑ a : ZMod m, ∑ b : ZMod m, y a * w ((b - a).val) * y b
      = ∑ a : ZMod m, ∑ t : ZMod m, y a * w t.val * y (a + t) :=
        Finset.sum_congr rfl (fun a _ => step1 a)
    _ = ∑ t : ZMod m, ∑ a : ZMod m, y a * w t.val * y (a + t) :=
        Finset.sum_comm
    _ = ∑ t : ZMod m, w t.val * cor m y t := by
        refine Finset.sum_congr rfl (fun t _ => ?_)
        unfold cor
        rw [Finset.mul_sum]
        exact Finset.sum_congr rfl (fun a _ => by ring)

/-- The value of `(u : ZMod m) - 5` for `u < 11` on a grid with `m > 10`. -/
theorem zmod_sub5_val (m : ℕ) [NeZero m] (hm : 10 < m) (u : ℕ)
    (hu : u < 11) :
    ((u : ZMod m) - 5).val = if 5 ≤ u then u - 5 else m + u - 5 := by
  by_cases h5 : 5 ≤ u
  · rw [if_pos h5]
    have hc : (u : ZMod m) - 5 = ((u - 5 : ℕ) : ZMod m) := by
      rw [Nat.cast_sub h5]
      push_cast
      ring
    rw [hc, ZMod.val_natCast_of_lt (by omega)]
  · rw [if_neg h5]
    have hc : (u : ZMod m) - 5 = ((m + u - 5 : ℕ) : ZMod m) := by
      rw [Nat.cast_sub (by omega), Nat.cast_add, ZMod.natCast_self]
      push_cast
      ring
    rw [hc, ZMod.val_natCast_of_lt (by omega)]

/-- A lag sum against a half-width-5 wrap stencil reduces, for `m > 10`, to
the eleven wrapped stencil positions. -/
theorem stencil_lag_sum (m : ℕ) [NeZero m] (hm : 10 < m) (dl : List ℚ)
    (y : ZMod m → ℚ) :
    ∑ t : ZMod m, buildv m 5 5 dl t.val * cor m y t
      = ∑ u in Finset.range 11,
          dl.getD u 0 * cor m y ((u : ZMod m) - 5) := by
  have hzero : ∀ t : ZMod m,
      t ∈ (Finset.univ : Finset (ZMod m)) →
      t ∉ Finset.image (fun u : ℕ => (u : ZMod m) - 5) (Finset.range 11) →
      buildv m 5 5 dl t.val * cor m y t = 0 := by
    intro t _ htni
    have hval : t.val < m := ZMod.val_lt t
    unfold buildv
    by_cases hb1 : m - 5 ≤ t.val ∧ t.val < m
    · exfalso
      apply htni
      refine Finset.mem_image.mpr ⟨t.val + 5 - m,
        Finset.mem_range.mpr (by omega), ?_⟩
      rw [Nat.cast_sub (by omega), Nat.cast_add, ZMod.natCast_self,
        natCast_val_self]
      push_cast
      ring
    · by_cases hb2 : t.val ≤ 5
      · exfalso
        apply htni
        refine Finset.mem_image.mpr ⟨t.val + 5,
          Finset.mem_range.mpr (by omega), ?_⟩
        rw [Nat.cast_add, natCast_val_self]
        push_cast
        ring
      · rw [if_neg hb1, if_neg hb2, zero_mul]
  rw [← Finset.sum_subset (Finset.subset_univ _) hzero]
  rw [Finset.sum_image (fun x hx x' hx' he => by
    have hv := congrArg ZMod.val he
    rw [zmod_sub5_val m hm x (Finset.mem_range.mp hx),
      zmod_sub5_val m hm x' (Finset.mem_range.mp hx')] at hv
    have hx11 := Finset.mem_range.mp hx
    have hx11' := Finset.mem_range.mp hx'
    split_ifs at hv <;> omega)]
  refine Finset.sum_congr rfl (fun u hu => ?_)
  have hu' : u < 11 := Finset.mem_range.mp hu
  congr 1
  rw [zmod_sub5_val m hm u hu']
  by_cases h5 : 5 ≤ u
  · rw [if_pos h5]
    unfold buildv
    rw [if_neg (by omega), if_pos (by omega)]
    congr 1
    omega
  · rw [if_neg h5]
    unfold buildv
    rw [if_pos (by omega)]
    congr 1
    omega

/-- The filter-autocorrelation lag sum is the sum of squares of the
filtered grid function. -/
theorem rho_lag_sum_is_sos (m : ℕ) [NeZero m] (hm : 10 < m)
    (y : ZMod m → ℚ) :
    ∑ u in Finset.range 11, rhoG u * cor m y ((u : ZMod m) - 5)
      = ∑ a : ZMod m,
          (∑ j in Finset.range 6, gfac.getD j 0 * y (a + j))^2 := by
  have hrhs : ∑ a : ZMod m,
      (∑ j in Finset.range 6, gfac.getD j 0 * y (a + j))^2
      = ∑ j in Finset.range 6, ∑ j' in Finset.range 6,
          gfac.getD j 0 * gfac.getD j' 0 *
            cor m y ((j' : ZMod m) - (j : ZMod m)) := by
    have hexp : ∀ a : ZMod m,
        (∑ j in Finset.range 6, gfac.getD j 0 * y (a + j))^2
        = ∑ j in Finset.range 6, ∑ j' in Finset.range 6,
            gfac.getD j 0 * gfac.getD j' 0 * (y (a + j) * y (a + j')) := by
      intro a
      rw [sq, Finset.sum_mul_sum]
      exact Finset.sum_congr rfl (fun j _ =>
        Finset.sum_congr rfl (fun j' _ => by ring))
    rw [Finset.sum_congr rfl (fun a _ => hexp a), Finset.sum_comm]
    refine Finset.sum_congr rfl (fun j _ => ?_)
    rw [Finset.sum_comm]
    refine Finset.sum_congr rfl (fun j' _ => ?_)
    rw [← Finset.mul_sum]
    congr 1
    unfold cor
    refine Fintype.sum_equiv (Equiv.addRight (j : ZMod m)) _ _ (fun a => ?_)
    show y (a + j) * y (a + j') = y (a + j) * y (a + j + ((j' : ZMod m) - j))
    rw [show a + (j : ZMod m) + ((j' : ZMod m) - j) = a + j' by ring]
  rw [hrhs]
  unfold rhoG
  have hdist : ∀ u ∈ Finset.range 11,
      (∑ j in Finset.range 6, ∑ j' in Finset.range 6,
        if j' + 5 = j + u then gfac.getD j 0 * gfac.getD j' 0 else 0) *
        cor m y ((u : ZMod m) - 5)
      = ∑ j in Finset.range 6, ∑ j' in Finset.range 6,
          (if j' + 5 = j + u then
            gfac.getD j 0 * gfac.getD j' 0 * cor m y ((u : ZMod m) - 5)
          else 0) := by
    intro u _
    rw [Finset.sum_mul]
    refine Finset.sum_congr rfl (fun j _ => ?_)
    rw [Finset.sum_mul]
    refine Finset.sum_congr rfl (fun j' _ => ?_)
    rw [ite_mul, zero_mul]
  rw [Finset.sum_congr rfl hdist, Finset.sum_comm]
  refine Finset.sum_congr rfl (fun j hj => ?_)
  rw [Finset.sum_comm]
  refine Finset.sum_congr rfl (fun j' hj' => ?_)
  have hj6 := Finset.mem_range.mp hj
  have hj6' := Finset.mem_range.mp hj'
  rw [Finset.sum_eq_single (j' + 5 - j)]
  · rw [if_pos (by omega)]
    congr 1
    rw [Nat.cast_sub (by omega), Nat.cast_add]
    push_cast
    ring
  · intro u _ hne
    rw [if_neg (by omega)]
  · intro habs
    exact absurd (Finset.mem_range.mpr (by omega)) habs

/-- Bilinear lower bound: a product of bounded factors is at least minus
the product of the bounds. -/
theorem term_lb (r c B c0 : ℚ) (h1 : -B ≤ r) (h2 : r ≤ B) (h3 : -c0 ≤ c)
    (h4 : c ≤ c0) : -(B * c0) ≤ r * c := by
  have p1 : 0 ≤ (B - r) * (c0 - c) := mul_nonneg (by linarith) (by linarith)
  have p2 : 0 ≤ (B + r) * (c0 + c) := mul_nonneg (by linarith) (by linarith)
  nlinarith [p1, p2]

set_option maxHeartbeats 3200000 in
/-- The off-center remainder stencil entries are at most `10⁻⁸` in
magnitude. -/
theorem rkG_off_bound (u : ℕ) (hu : u < 11) (hne : u ≠ 5) :
    -(1/100000000 : ℚ) ≤ rkG u ∧ rkG u ≤ (1/100000000 : ℚ) := by
  interval_cases u
  all_goals first
  | exact absurd rfl hne
  | constructor <;>
      norm_num [rkG, rhoG, impHd, gfac, Finset.sum_range_succ, List.getD,
        h0, h1, h2, h3, h4, h5]

set_option maxHeartbeats 1600000 in
/-- The center remainder entry exceeds ten times the off-center bound. -/
theorem rkG_center_bound : (10 : ℚ) * (1/100000000) < rkG 5 := by
  norm_num [rkG, rhoG, impHd, gfac, Finset.sum_range_succ, List.getD,
    h0, h1, h2, h3, h4, h5]

/-- Positive definiteness of the implicit norm circulant: the quadratic
form of the `impHd` wrap stencil is positive on every nonzero grid
function, for `m > 10`. -/
theorem impHd_qf_pos (m : ℕ) [NeZero m] (hm : 10 < m) (y : ZMod m → ℚ)
    (a0 : ZMod m) (hy : y a0 ≠ 0) :
    0 < ∑ a : ZMod m, ∑ b : ZMod m,
      y a * buildv m 5 5 impHd ((b - a).val) * y b := by
  rw [qf_to_cor m (buildv m 5 5 impHd) y, stencil_lag_sum m hm impHd y]
  have hsplit : ∑ u in Finset.range 11,
      impHd.getD u 0 * cor m y ((u : ZMod m) - 5)
      = (∑ u in Finset.range 11, rhoG u * cor m y ((u : ZMod m) - 5))
        + ∑ u in Finset.range 11, rkG u * cor m y ((u : ZMod m) - 5) := by
    rw [← Finset.sum_add_distrib]
    refine Finset.sum_congr rfl (fun u _ => ?_)
    unfold rkG
    ring
  rw [hsplit]
  have hsos : 0 ≤ ∑ u in Finset.range 11,
      rhoG u * cor m y ((u : ZMod m) - 5) := by
    rw [rho_lag_sum_is_sos m hm y]
    exact Finset.sum_nonneg (fun a _ => sq_nonneg _)
  have hcor0 : 0 < cor m y 0 := cor_zero_pos m y a0 hy
  have h5mem : (5 : ℕ) ∈ Finset.range 11 := by decide
  have hphi5 : (((5 : ℕ) : ZMod m) - 5) = 0 := by
    push_cast
    ring
  have hsplit5 : rkG 5 * cor m y 0
      + ∑ u in (Finset.range 11).erase 5,
          rkG u * cor m y ((u : ZMod m) - 5)
      = ∑ u in Finset.range 11, rkG u * cor m y ((u : ZMod m) - 5) := by
    rw [← Finset.add_sum_erase _ _ h5mem, hphi5]
  have herase : ∀ u ∈ (Finset.range 11).erase 5,
      -((1/100000000 : ℚ) * cor m y 0)
        ≤ rkG u * cor m y ((u : ZMod m) - 5) := by
    intro u hu
    have hu1 : u ≠ 5 := (Finset.mem_erase.mp hu).1
    have hu2 : u < 11 := Finset.mem_range.mp (Finset.mem_erase.mp hu).2
    obtain ⟨hlb, hub⟩ := rkG_off_bound u hu2 hu1
    exact term_lb _ _ _ _ hlb hub (cor_ge_neg_zero_lag m y _)
      (cor_le_zero_lag m y _)
  have hsum_lb : (10 : ℚ) * (-((1/100000000 : ℚ) * cor m y 0))
      ≤ ∑ u in (Finset.range 11).erase 5,
          rkG u * cor m y ((u : ZMod m) - 5) := by
    have hcard : ((Finset.range 11).erase 5).card = 10 := by decide
    have hle := Finset.sum_le_sum herase
    rw [Finset.sum_const, hcard, nsmul_eq_mul] at hle
    push_cast at hle
    linarith [hle]
  have hkey : 0 < (rkG 5 - 10 * (1/100000000)) * cor m y 0 :=
    mul_pos (by linarith [rkG_center_bound]) hcor0
  rw [sub_mul] at hkey
  linarith [hsos, hsum_lb, hkey, hsplit5.symm ▸ le_refl
    (∑ u in Finset.range 11, rkG u * cor m y ((u : ZMod m) - 5))]

/-- Transfer of a circulant quadratic form from `Finset.range m` indices to
`ZMod m` indices. -/
theorem qf_range_to_zmod (m : ℕ) [NeZero m] (w : Vec) (x : ℕ → ℚ) :
    ∑ i in Finset.range m, ∑ j in Finset.range m,
      x i * circmat m w i j * x j
      = ∑ a : ZMod m, ∑ b : ZMod m,
          x a.val * w ((b - a).val) * x b.val := by
  have step1 : ∑ i in Finset.range m, ∑ j in Finset.range m,
      x i * circmat m w i j * x j
      = ∑ i in Finset.range m, ∑ j in Finset.range m,
          x i * w (((j : ZMod m) - (i : ZMod m)).val) * x j :=
    Finset.sum_congr rfl (fun i hi => Finset.sum_congr rfl (fun j hj => by
      rw [circmat_entry_zmod m w i j (Finset.mem_range.mp hi)
        (Finset.mem_range.mp hj)]))
  rw [step1, sum_range_eq_sum_zmod m (fun i => ∑ j in Finset.range m,
    x i * w (((j : ZMod m) - (i : ZMod m)).val) * x j)]
  refine Finset.sum_congr rfl (fun a _ => ?_)
  rw [sum_range_eq_sum_zmod m (fun j => x a.val *
    w (((j : ZMod m) - ((a.val : ℕ) : ZMod m)).val) * x j)]
  refine Finset.sum_congr rfl (fun b _ => ?_)
  rw [natCast_val_self, natCast_val_self]

/-- C7: for `m > 10` and `h > 0`, `periodic_imp(m, h, False)` returns a
norm matrix `H` that is symmetric and positive definite (the quadratic
form `xᵀHx` is positive for every `x` that is nonzero on the grid) and a
difference matrix `Q` that is exactly skew-symmetric. -/
theorem C7_imp_H_spd_Q_skew (m : ℕ) (h : ℚ) (hm : 10 < m) (hh : 0 < h) :
    ∃ H Q : Mat, periodic_imp m h false = .ok (H, Q) ∧
      (∀ i j, i < m → j < m → H i j = H j i) ∧
      (∀ x : ℕ → ℚ, (∃ i, i < m ∧ x i ≠ 0) →
        0 < ∑ i in Finset.range m, ∑ j in Finset.range m,
          x i * H i j * x j) ∧
      (∀ i j, i < m → j < m → Q i j + Q j i = 0) := by
  haveI : NeZero m := ⟨by omega⟩
  refine ⟨_, _, periodic_imp_eq m h (by omega), ?_, ?_, ?_⟩
  · intro i j hi hj
    show h * circmat m (buildv m 5 5 impHd) i j
      = h * circmat m (buildv m 5 5 impHd) j i
    rw [circmat_symm m 5 5 impHd rfl
      (by intro t ht; interval_cases t <;> rfl) (by omega) i j hi hj]
  · rintro x ⟨i0, hi0, hx0⟩
    have hpull : ∑ i in Finset.range m, ∑ j in Finset.range m,
        x i * (h * circmat m (buildv m 5 5 impHd) i j) * x j
        = h * ∑ i in Finset.range m, ∑ j in Finset.range m,
            x i * circmat m (buildv m 5 5 impHd) i j * x j := by
      rw [Finset.mul_sum]
      refine Finset.sum_congr rfl (fun i _ => ?_)
      rw [Finset.mul_sum]
      exact Finset.sum_congr rfl (fun j _ => by ring)
    show 0 < ∑ i in Finset.range m, ∑ j in Finset.range m,
      x i * (h * circmat m (buildv m 5 5 impHd) i j) * x j
    rw [hpull, qf_range_to_zmod m (buildv m 5 5 impHd) x]
    refine mul_pos hh (impHd_qf_pos m (by omega) _ ((i0 : ℕ) : ZMod m) ?_)
    show x (((i0 : ℕ) : ZMod m)).val ≠ 0
    rw [ZMod.val_natCast_of_lt hi0]
    exact hx0
  · intro i j hi hj
    exact circmat_skew m 5 5 impQd rfl
      (by intro t ht; interval_cases t <;> simp [impQd, List.getD])
      (by omega) i j hi hj

/-- Witness for C7 at `m = 11`, `h = 1`. -/
theorem C7_witness :
    10 < 11 ∧ (0 : ℚ) < 1 ∧
      (∃ H Q : Mat, periodic_imp 11 1 false = .ok (H, Q) ∧
        (∀ i j, i < 11 → j < 11 → H i j = H j i) ∧
        (∀ x : ℕ → ℚ, (∃ i, i < 11 ∧ x i ≠ 0) →
          0 < ∑ i in Finset.range 11, ∑ j in Finset.range 11,
            x i * H i j * x j) ∧
        (∀ i j, i < 11 → j < 11 → Q i j + Q j i = 0)) :=
  ⟨by decide, by norm_num, C7_imp_H_spd_Q_skew 11 1 (by decide)
    (by norm_num)⟩

end Sbp
